import Mathlib

/-!
Shallow embedding of the hunt-summary-extractor pipeline.

The repository holds two variants of the same program:
`src/src/main.rs` (newer: optional watch mode, second-resolution timestamps)
and `src/hunt-summary-extractor/src/main.rs` (older: single shot,
minute-resolution timestamps).  The extraction loop, the staging write, the
directory scan and the promote step are line-for-line identical between the
two, so one embedding covers both; the definitions below cite line numbers
of `src/src/main.rs`.

Conventions of the embedding:
* `u32` values are `Nat` with an explicit `% 2 ^ 32` where the source can
  wrap (release builds of Rust wrap on overflow); `u32::parse` is an
  `Option Nat` that rejects values `≥ 2 ^ 32`.
* File contents are `String` (the real files are byte streams; all data in
  play is ASCII, where the two coincide character for character).
* Panics (`expect` / `unwrap`) are `RunError.fatal`, errors propagated with
  the `?` operator are `RunError.thrown`; both abort the current run.
* The regex `MissionBagPlayer_(\d+)_(\d+)_(\w+)` is modelled with ASCII
  character classes and leftmost, greedy matching.  Because a digit is never
  an underscore, greedy matching of this particular pattern never
  backtracks, so maximal munch reproduces the capture groups exactly.
  (Rust defaults the classes to their Unicode versions; the attribute names
  this program consumes are ASCII, where the classes agree.)
-/

/-- One `<Attr name value/>` element of the dump, as produced by the XML
collaborator (struct `Item`, main.rs lines 51-58). -/
structure Item where
  name : String
  value : String
deriving DecidableEq

/-- ASCII decimal digit, the class `\d` of the player-entry regex. -/
def isDigitC (c : Char) : Bool := '0' ≤ c && c ≤ '9'

/-- ASCII word character, the class `\w` of the player-entry regex. -/
def isWordC (c : Char) : Bool := c.isAlpha || isDigitC c || c == '_'

/-- Strips a literal prefix of characters, or fails. -/
def stripLit : List Char → List Char → Option (List Char)
  | [], cs => some cs
  | _, [] => none
  | l :: ls, c :: cs => if c = l then stripLit ls cs else none

/-- Numeric value of a digit string (the value `str::parse` computes). -/
def digitsToNat (ds : List Char) : Nat :=
  ds.foldl (fun n c => 10 * n + (c.toNat - Char.toNat '0')) 0

/-- Model of `str::parse::<u32>` on a capture of `\d+`: the digits are guaranteed,
only overflow past `u32::MAX` can fail. -/
def parseU32digits (s : String) : Option Nat :=
  if digitsToNat s.data < 2 ^ 32 then some (digitsToNat s.data) else none

/-- Model of `str::parse::<u32>` on an arbitrary attribute value: an optional `+`
sign, then one or more ASCII digits, value below `2 ^ 32`. -/
def parseU32String (s : String) : Option Nat :=
  let cs := match s.data with
    | '+' :: r => r
    | r => r
  if !cs.isEmpty && cs.all isDigitC && digitsToNat cs < 2 ^ 32 then
    some (digitsToNat cs)
  else none

/-- Attempts the pattern `MissionBagPlayer_(\d+)_(\d+)_(\w+)` anchored at the
head of the character list, returning the three capture groups. -/
def matchTail (cs : List Char) : Option (String × String × String) :=
  match stripLit "MissionBagPlayer_".data cs with
  | none => none
  | some rest =>
    match rest.span isDigitC with
    | (d1, r1) =>
      if d1.isEmpty then none else
      match r1 with
      | '_' :: r2 =>
        match r2.span isDigitC with
        | (d2, r3) =>
          if d2.isEmpty then none else
          match r3 with
          | '_' :: r4 =>
            match r4.span isWordC with
            | (w, _) =>
              if w.isEmpty then none
              else some (String.mk d1, String.mk d2, String.mk w)
          | _ => none
      | _ => none

/-- Tries the anchored match at every start position, left to right: the
unanchored leftmost-match semantics of `Regex::captures` (main.rs line 99). -/
def capturesAux : List Char → Option (String × String × String)
  | [] => none
  | c :: cs =>
    match matchTail (c :: cs) with
    | some r => some r
    | none => capturesAux cs

/-- Model of `re_player_entry.captures(name)`: the three capture groups of the first
match of `MissionBagPlayer_(\d+)_(\d+)_(\w+)` in `name`, if any. -/
def capturesPlayerEntry (s : String) : Option (String × String × String) :=
  capturesAux s.data

/-- A retained player entry after the filter of main.rs lines 132-139:
capture groups decoded, team index already known to be below the team
count. -/
structure Entry where
  team : Nat
  player : Nat
  fieldName : String
  value : String
deriving DecidableEq

/-- Errors aborting a run: `fatal` models a panic (`expect` / `unwrap`),
`thrown` models an error propagated with `?`. -/
inductive RunError where
  | fatal (msg : String)
  | thrown (msg : String)
deriving DecidableEq

/-- The composite player key `(3 * team) + player` computed in u32
arithmetic (main.rs lines 160 and 184). -/
def curOf (e : Entry) : Nat := (3 * e.team + e.player) % 2 ^ 32

/-- The composite key before u32 wrapping, for stating bounds. -/
def rawCur (e : Entry) : Nat := 3 * e.team + e.player

/-- The sentinel `u32::MAX` initialising `previous_player`
(main.rs line 171). -/
def SENT : Nat := 2 ^ 32 - 1

/-- Offset added to team and player numbers in the output: `0` with
`--zero-based`, else `1` (main.rs lines 193-194). -/
def offOf (zb : Bool) : Nat := if zb then 0 else 1

/-- One piece of output of the player-data loop, mirroring its two
`write_all` calls: a row opener `\n{team},{player}` or one `,{value}`. -/
inductive Chunk where
  | rowStart (t p : Nat)
  | fieldVal (v : String)
deriving DecidableEq

/-- The player-data loop of main.rs lines 171-201: iterates the retained
entries in dump order, tracking `previous_player` and `skip_to_team`;
starts a new row when the composite key changes, and on an empty value at a
row start records no row and skips the rest of that team. -/
def dataLoop (off : Nat) : List Entry → Nat → Nat → List Chunk
  | [], _, _ => []
  | e :: rest, prev, skip =>
    if e.team < skip then dataLoop off rest prev skip
    else if curOf e ≠ prev then
      if e.value = "" then dataLoop off rest (curOf e) (e.team + 1)
      else
        Chunk.rowStart ((e.team + off) % 2 ^ 32) ((e.player + off) % 2 ^ 32)
          :: Chunk.fieldVal e.value :: dataLoop off rest (curOf e) skip
    else Chunk.fieldVal e.value :: dataLoop off rest prev skip

/-- The header loop of main.rs lines 152-167: emits the field name of every
leading entry whose composite key is `0`, breaking at the first other
entry. -/
def headersOf (es : List Entry) : List String :=
  (es.takeWhile (fun e => curOf e == 0)).map (·.fieldName)

/-- Output of the extraction loop before serialisation. -/
structure ExtractOut where
  headers : List String
  chunks : List Chunk
deriving DecidableEq

/-- Renders one chunk exactly as the corresponding `write_all`
(main.rs lines 195 and 199). -/
def renderChunk : Chunk → String
  | Chunk.rowStart t p => "\n" ++ toString t ++ "," ++ toString p
  | Chunk.fieldVal v => "," ++ v

/-- The byte content written to the staging file: `Team,Player`, the
discovered headers, then the data chunks; no trailing newline
(main.rs lines 150-201). -/
def serialize (eo : ExtractOut) : String :=
  "Team,Player" ++ String.join (eo.headers.map (fun h => "," ++ h))
    ++ String.join (eo.chunks.map renderChunk)

/-- The value of the first `MissionBagNumTeams` item, if any
(main.rs lines 126-127). -/
def findNumTeamsVal (items : List Item) : Option String :=
  (items.find? (fun i => i.name == "MissionBagNumTeams")).map (·.value)

/-- The filter of main.rs lines 132-139 fused with the capture decoding the
two loops redo per item: keeps exactly the items matching the player-entry
regex whose team capture parses below `num_teams`.  The team capture is
parsed with `unwrap` inside the filter (panic on u32 overflow); the player
capture is parsed with `?` in the loops (error on overflow) — either way
the run aborts, which this single pass reproduces. -/
def decodeItems (numTeams : Nat) : List Item → Except RunError (List Entry)
  | [] => Except.ok []
  | i :: rest =>
    match capturesPlayerEntry i.name with
    | none => decodeItems numTeams rest
    | some (tds, pds, f) =>
      match parseU32digits tds with
      | none => Except.error (RunError.fatal "u32 overflow in team capture")
      | some t =>
        if t < numTeams then
          match parseU32digits pds with
          | none => Except.error (RunError.thrown "u32 overflow in player capture")
          | some p =>
            match decodeItems numTeams rest with
            | Except.error e => Except.error e
            | Except.ok es => Except.ok (⟨t, p, f, i.value⟩ :: es)
        else decodeItems numTeams rest

/-- The extraction loop of main.rs lines 126-206: `none` when no
`MissionBagNumTeams` item exists (nothing is written), otherwise the headers
and data chunks for the staging file, or the error aborting the run. -/
def extractCore (zb : Bool) (items : List Item) :
    Except RunError (Option ExtractOut) :=
  match findNumTeamsVal items with
  | none => Except.ok none
  | some v =>
    match parseU32String v with
    | none => Except.error (RunError.thrown "invalid digit found in string")
    | some nT =>
      match decodeItems nT items with
      | Except.error e => Except.error e
      | Except.ok es =>
        Except.ok (some ⟨headersOf es, dataLoop (offOf zb) es SENT 0⟩)

/-- One entry of the output directory as `read_dir` yields it: file name,
file-vs-directory flag, byte content (empty for directories) and
modification time (`Nat`, abstract clock). -/
structure DirEntry where
  name : String
  isFile : Bool
  content : String
  mtime : Nat
deriving DecidableEq

/-- Splits a character list around its last `.`: the parts before and after
it. -/
def splitLastDot : List Char → Option (List Char × List Char)
  | [] => none
  | c :: cs =>
    match splitLastDot cs with
    | some (b, e) => some (c :: b, e)
    | none => if c = '.' then some ([], cs) else none

/-- Model of `Path::extension` on a file name: the portion after the last `.`, or
`None` when there is no `.` or the only `.` is leading (so `.csv` as a
whole file name has no extension).  The `..` entry, special-cased by Rust,
never occurs in a `read_dir` listing. -/
def pathExtension (name : String) : Option String :=
  match splitLastDot name.data with
  | none => none
  | some ([], _) => none
  | some (_ :: _, ext) => some (String.mk ext)

/-- Message of the panic raised by `Option::unwrap` on `None`. -/
def unwrapMsg : String := "called Option.unwrap on a None value"

/-- The directory-scan predicate of main.rs lines 111-118, with the
short-circuit order of `&&`: directories are dropped before the extension
is consulted, but `extension().unwrap()` panics on a file whose name has no
extension. -/
def keepEntry (tmp : String) (e : DirEntry) : Except RunError Bool :=
  if e.isFile then
    match pathExtension e.name with
    | none => Except.error (RunError.fatal unwrapMsg)
    | some ext => Except.ok (ext == "csv" && e.name != tmp)
  else Except.ok false

/-- The `read_dir` filter of main.rs lines 109-120: keeps the entries that
are files with extension `csv` and a name other than the staging file,
panicking on any file without an extension. -/
def scanExisting (tmp : String) : List DirEntry → Except RunError (List DirEntry)
  | [] => Except.ok []
  | x :: rest =>
    match keepEntry tmp x with
    | Except.error e => Except.error e
    | Except.ok b =>
      match scanExisting tmp rest with
      | Except.error e => Except.error e
      | Except.ok ks => Except.ok (if b then x :: ks else ks)

/-- Model of `sort_by_cached_key(modified)` followed by `.last()`
(main.rs lines 121-122): the most recently modified kept entry; on equal
times the stable sort keeps directory order, so the rightmost maximum
wins. -/
def latestOf : List DirEntry → Option DirEntry
  | [] => none
  | e :: rest =>
    match latestOf rest with
    | none => some e
    | some m => some (if e.mtime > m.mtime then e else m)

/-- Effect on a file of `File::options().read(true).write(true).create(true)`
followed by `write_all` (main.rs lines 141-146): the open TRUNCATES NOTHING,
so writing from offset zero leaves any prior bytes beyond the new length in
place. -/
def overwriteNoTrunc (old new : String) : String :=
  new ++ (old.drop new.length)

/-- Looks a directory entry up by name. -/
def findEntry (l : List DirEntry) (n : String) : Option DirEntry :=
  l.find? (fun e => e.name == n)

/-- Removes the entry of the given name. -/
def removeEntry (l : List DirEntry) (n : String) : List DirEntry :=
  l.filter (fun e => e.name != n)

/-- Inserts an entry, replacing an existing one of the same name (the
semantics of creating or renaming over an existing path). -/
def putEntry : List DirEntry → DirEntry → List DirEntry
  | [], e => [e]
  | x :: xs, e => if x.name == e.name then e :: xs else x :: putEntry xs e

/-- Content of the staging file after this run's write: the new bytes over
whatever the file held before, without truncation. -/
def stagedContent (dir : List DirEntry) (n new : String) : String :=
  match findEntry dir n with
  | some e => overwriteNoTrunc e.content new
  | none => new

/-- The staging write: creates or non-truncating-overwrites the staging
file, stamping it with the current time. -/
def stagedWrite (dir : List DirEntry) (n new : String) (now : Nat) :
    List DirEntry :=
  putEntry dir ⟨n, true, stagedContent dir n new, now⟩

/-- The permanent file name `Local::now().format("%Y-%m-%d_%H-%M-%S")` with
the `.csv` extension (main.rs lines 221-222), abstracted to an injective
function of the run's clock; collisions of two runs within one formatted
second are outside this model. -/
def timestampName (now : Nat) : String := toString now ++ ".csv"

/-- Result of a completed run: the output directory afterwards, and the
promoted `(file name, content)` if the staging file was renamed. -/
structure RunResult where
  dir : List DirEntry
  promoted : Option (String × String)
deriving DecidableEq

/-- Model of `fs::rename` of the staging file to the timestamp name
(main.rs lines 223-227): the entry moves, keeping content and modification
time; an existing destination would be replaced. -/
def doRename (dir : List DirEntry) (tmp : String) (te : DirEntry) (now : Nat) :
    RunResult :=
  ⟨putEntry (removeEntry dir tmp) ⟨timestampName now, true, te.content, te.mtime⟩,
   some (timestampName now, te.content)⟩

/-- The promote step of main.rs lines 210-229, run UNCONDITIONALLY after the
extraction loop: when a latest prior snapshot exists, read it and the
staging file (panicking if the staging file is absent) and rename on
difference; when none exists, rename outright (panicking if the staging
file is absent). -/
def promotePhase (dir : List DirEntry) (tmp : String) (latest : Option DirEntry)
    (now : Nat) : Except RunError RunResult :=
  match latest with
  | some de =>
    match findEntry dir tmp with
    | none =>
      Except.error (RunError.fatal "Could not read newly created temporary CSV file.")
    | some te =>
      if te.content ≠ de.content then Except.ok (doRename dir tmp te now)
      else Except.ok ⟨dir, none⟩
  | none =>
    match findEntry dir tmp with
    | none =>
      Except.error (RunError.fatal "Could not rename temporary CSV file with timestamp.")
    | some te => Except.ok (doRename dir tmp te now)

/-- Outcome of reading and XML-parsing the source dump on one triggering
event; the parser itself is an external collaborator, so a run's input is
the parsed item list or one of the two failure modes. -/
inductive DumpRead where
  | unavailable
  | malformedXml
  | parsed (items : List Item)

/-- One invocation of `extract_player_data` (main.rs lines 95-232): read and
parse the dump (panicking on failure), scan the output directory, run the
extraction loop, write the staging file if a team count was found, then run
the promote step. -/
def runPipeline (zb : Bool) (tmp : String) (dump : DumpRead)
    (dir : List DirEntry) (now : Nat) : Except RunError RunResult :=
  match dump with
  | DumpRead.unavailable => Except.error (RunError.fatal "Could not open file.")
  | DumpRead.malformedXml => Except.error (RunError.fatal "XML deserialization failed")
  | DumpRead.parsed items =>
    match scanExisting tmp dir with
    | Except.error e => Except.error e
    | Except.ok kept =>
      match extractCore zb items with
      | Except.error e => Except.error e
      | Except.ok out =>
        promotePhase
          (match out with
           | none => dir
           | some eo => stagedWrite dir tmp (serialize eo) now)
          tmp (latestOf kept) now

/-- The watch-mode receive loop of main.rs lines 82-87: an `Err` from the
notification channel is printed and the loop continues; an `Ok` event runs
the pipeline, whose failure leaves the loop through `?` (or a panic) and
ends the watcher. -/
def watchLoop (zb : Bool) (tmp : String) :
    List (Except String DumpRead) → List DirEntry → Nat →
    Except RunError (List DirEntry)
  | [], dir, _ => Except.ok dir
  | Except.error _ :: rest, dir, t => watchLoop zb tmp rest dir t
  | Except.ok d :: rest, dir, t =>
    match runPipeline zb tmp d dir t with
    | Except.error e => Except.error e
    | Except.ok r => watchLoop zb tmp rest r.dir (t + 1)

/-- Output team numbers of the emitted rows, in emission order. -/
def rowTeams (cs : List Chunk) : List Nat :=
  cs.filterMap (fun c =>
    match c with
    | Chunk.rowStart a _ => some a
    | Chunk.fieldVal _ => none)

/-- Composite keys `3 * team + player` of the emitted rows, in emission
order (meaningful for zero-based output, where rows carry the raw
indices). -/
def rowKeys (cs : List Chunk) : List Nat :=
  cs.filterMap (fun c =>
    match c with
    | Chunk.rowStart a b => some (3 * a + b)
    | Chunk.fieldVal _ => none)

/-- State transition of the data loop on one entry: how
`(previous_player, skip_to_team)` evolves, mirroring `dataLoop` without the
output. -/
def stepPS (s : Nat × Nat) (e : Entry) : Nat × Nat :=
  if e.team < s.2 then s
  else if curOf e ≠ s.1 then
    if e.value = "" then (curOf e, e.team + 1) else (curOf e, s.2)
  else s

/-- State of the data loop after consuming a list of entries. -/
def finalPS (l : List Entry) (s : Nat × Nat) : Nat × Nat :=
  l.foldl stepPS s

/-- Modelled from the spec: the attribute index of §4.1 — mapping by name,
last occurrence wins — used by the fixed-schema strategy, whose
implementation is the repository variant missing from `src/` (both files
under `src/` implement only strategy a). -/
def lookupAttr (items : List Item) (k : String) : Option String :=
  ((items.filter (fun i => i.name == k)).getLast?).map (·.value)

/-- Modelled from the spec: the error kinds of §4.2-§4.3 relevant to the
fixed-schema strategy. -/
inductive FixedError where
  | malformedInput
  | missingField
deriving DecidableEq

/-- Modelled from the spec: one row of the fixed-schema assembler, with its
zero-based team and player indices and the field values in header order. -/
structure FixedRow where
  team : Nat
  player : Nat
  values : List String
deriving DecidableEq

/-- Modelled from the spec: the outcome of a fixed-schema run — `noData`
when the team-count key is entirely absent (a normal non-error outcome,
§4.2), else the assembled rows. -/
inductive FixedOutcome where
  | noData
  | rows (rs : List FixedRow)
deriving DecidableEq

/-- Modelled from the spec: reading `team_<t>_numplayers` (§4.2, strategy
b); absence or a non-integer value is a MalformedInput failure. -/
def readCount (items : List Item) (t : Nat) : Except FixedError Nat :=
  match lookupAttr items ("team_" ++ toString t ++ "_numplayers") with
  | none => Except.error FixedError.malformedInput
  | some v =>
    match parseU32String v with
    | none => Except.error FixedError.malformedInput
    | some n => Except.ok n

/-- Modelled from the spec: the per-team player counts for team indices in
`[0, num_teams)`. -/
def readAllCounts (items : List Item) : List Nat → Except FixedError (List Nat)
  | [] => Except.ok []
  | t :: ts =>
    match readCount items t with
    | Except.error e => Except.error e
    | Except.ok n =>
      match readAllCounts items ts with
      | Except.error e => Except.error e
      | Except.ok ns => Except.ok (n :: ns)

/-- Modelled from the spec: the declared player slots, team-major —
`team_index` from `0` to `num_teams - 1`, and for each, `player_index` from
`0` to that team's count minus one (§4.3, strategy b). -/
def slotsOf (tcs : List (Nat × Nat)) : List (Nat × Nat) :=
  tcs.flatMap (fun tc => (List.range tc.2).map (fun p => (tc.1, p)))

/-- Modelled from the spec: the field values of one slot, looked up by key
`player_<team>_<player>_<field>` in header order; an absent key is a
MissingField failure (§4.3, strategy b). -/
def lookupFields (items : List Item) (t p : Nat) :
    List String → Except FixedError (List String)
  | [] => Except.ok []
  | f :: fs =>
    match lookupAttr items
        ("player_" ++ toString t ++ "_" ++ toString p ++ "_" ++ f) with
    | none => Except.error FixedError.missingField
    | some v =>
      match lookupFields items t p fs with
      | Except.error e => Except.error e
      | Except.ok vs => Except.ok (v :: vs)

/-- Modelled from the spec: the fixed-schema row assembler, one row per
declared slot, never skipping (§4.3, strategy b). -/
def rowsOf (headers : List String) (items : List Item) :
    List (Nat × Nat) → Except FixedError (List FixedRow)
  | [] => Except.ok []
  | tp :: rest =>
    match lookupFields items tp.1 tp.2 headers with
    | Except.error e => Except.error e
    | Except.ok vs =>
      match rowsOf headers items rest with
      | Except.error e => Except.error e
      | Except.ok rs => Except.ok (⟨tp.1, tp.2, vs⟩ :: rs)

/-- Modelled from the spec: strategy b, explicit-count discovery (§4.2-§4.3)
— read `num_teams` (absent: no data this run; unparseable: MalformedInput),
read each `team_<t>_numplayers`, then emit one row per declared slot with
every field of the fixed header list, failing with MissingField on an
absent field key.  The statically-known header list is a parameter; the
spec fixes its length at 17 but not its names. -/
def extractFixed (headers : List String) (items : List Item) :
    Except FixedError FixedOutcome :=
  match lookupAttr items "num_teams" with
  | none => Except.ok FixedOutcome.noData
  | some v =>
    match parseU32String v with
    | none => Except.error FixedError.malformedInput
    | some nT =>
      match readAllCounts items (List.range nT) with
      | Except.error e => Except.error e
      | Except.ok counts =>
        match rowsOf headers items (slotsOf ((List.range nT).zip counts)) with
        | Except.error e => Except.error e
        | Except.ok rs => Except.ok (FixedOutcome.rows rs)

/-- A 17-name stand-in for the fixed header list of strategy b. -/
def fixedHeaders : List String :=
  ["a", "b", "c", "d", "e", "f", "g", "h", "i", "j", "k", "l", "m", "n",
   "o", "p", "q"]

/-- All 17 field items of one player slot, each holding value `v`. -/
def slotItems (t p : Nat) : List Item :=
  fixedHeaders.map (fun f =>
    ⟨"player_" ++ toString t ++ "_" ++ toString p ++ "_" ++ f, "v"⟩)

/-- The fixed-schema demonstration input of spec §8: two teams with one and
two players, every declared slot fully populated. -/
def c6Items : List Item :=
  [⟨"num_teams", "2"⟩, ⟨"team_0_numplayers", "1"⟩,
   ⟨"team_1_numplayers", "2"⟩]
    ++ slotItems 0 0 ++ slotItems 1 0 ++ slotItems 1 1

/-- A three-team dump where team 1's first (and only) entry is empty and
team 2 is populated. -/
def c1Items : List Item :=
  [⟨"MissionBagNumTeams", "3"⟩,
   ⟨"MissionBagPlayer_0_0_blood_line_name", "A"⟩,
   ⟨"MissionBagPlayer_1_0_blood_line_name", ""⟩,
   ⟨"MissionBagPlayer_2_0_blood_line_name", "C"⟩]

/-- A dump whose player entries appear in decreasing slot order. -/
def c9Items : List Item :=
  [⟨"MissionBagNumTeams", "3"⟩,
   ⟨"MissionBagPlayer_2_1_mmr", "x"⟩,
   ⟨"MissionBagPlayer_1_1_mmr", "y"⟩]

/-- A dump declaring zero teams: it parses, and serialises to the bare
header row `Team,Player`. -/
def dump0 : List Item := [⟨"MissionBagNumTeams", "0"⟩]

example : capturesPlayerEntry "MissionBagPlayer_0_0_blood_line_name"
    = some ("0", "0", "blood_line_name") := by decide
example : capturesPlayerEntry "MissionBagNumTeams" = none := by decide
example : capturesPlayerEntry "xMissionBagPlayer_12_3_mm"
    = some ("12", "3", "mm") := by decide
example : parseU32String "+42" = some 42 := by decide
example : parseU32String "" = none := by decide
example : parseU32String "4294967296" = none := by decide

/-- C1 counterexample: in a 3-team dump where team 1's first player slot has
the empty string and team 2 is populated, the pipeline (zero-based
numbering) still emits team 2's row — `Chunk.rowStart 2 0` appears in the
output, so rows of teams with index above the empty one are NOT suppressed,
contrary to the claim. -/
theorem c1_team_after_empty_still_emitted :
    extractCore true c1Items
      = Except.ok (some ⟨["blood_line_name"],
          [Chunk.rowStart 0 0, Chunk.fieldVal "A",
           Chunk.rowStart 2 0, Chunk.fieldVal "C"]⟩)
    ∧ (2 : Nat) ∈ rowTeams
        [Chunk.rowStart 0 0, Chunk.fieldVal "A",
         Chunk.rowStart 2 0, Chunk.fieldVal "C"] :=
  ⟨rfl, by decide⟩

/-- C2: the staging open (`File::options().read.write.create`, main.rs lines
141-145) never truncates, so when the staging file previously held more
bytes than the new serialisation, the tail survives: here the run
serialises `Team,Player` over a 14-byte prior staging file and the staging
file afterwards still reads `Team,PlayerXYZ`, not the newly serialised
bytes. -/
theorem c2_staging_keeps_leftover_bytes :
    runPipeline false "TEMP.CSV" (DumpRead.parsed dump0)
        [⟨"b.csv", true, "Team,PlayerXYZ", 1⟩,
         ⟨"TEMP.CSV", true, "Team,PlayerXYZ", 2⟩] 10
      = Except.ok ⟨[⟨"b.csv", true, "Team,PlayerXYZ", 1⟩,
                    ⟨"TEMP.CSV", true, "Team,PlayerXYZ", 10⟩], none⟩
    ∧ extractCore false dump0 = Except.ok (some ⟨[], []⟩)
    ∧ serialize ⟨[], []⟩ = "Team,Player"
    ∧ "Team,PlayerXYZ" ≠ "Team,Player" :=
  ⟨rfl, rfl, rfl, by decide⟩

/-- C3: with a promoted snapshot of content `X` present and a stale staging
file holding `Team,PlayerZZZ`, a run that serialises `B = Team,Player`
promotes a file whose content is `Team,PlayerZZZ` — the leftover staging
bytes, not exactly `B` — because the staging open does not truncate. -/
theorem c3_promoted_file_not_exactly_new_content :
    runPipeline false "TEMP.CSV" (DumpRead.parsed dump0)
        [⟨"a.csv", true, "X", 1⟩, ⟨"TEMP.CSV", true, "Team,PlayerZZZ", 2⟩] 10
      = Except.ok ⟨[⟨"a.csv", true, "X", 1⟩,
                    ⟨"10.csv", true, "Team,PlayerZZZ", 10⟩],
                   some ("10.csv", "Team,PlayerZZZ")⟩
    ∧ extractCore false dump0 = Except.ok (some ⟨[], []⟩)
    ∧ serialize ⟨[], []⟩ = "Team,Player"
    ∧ "Team,PlayerZZZ" ≠ "Team,Player" :=
  ⟨rfl, rfl, rfl, by decide⟩

/-- C4 counterexample: the first triggering event finds the source dump
unreadable; `fs::read_to_string(..).expect(..)` panics inside
`extract_player_data`, and the watch loop terminates without processing the
second (well-formed) event — the watcher does exit because of a single
failed event. -/
theorem c4_watcher_exits_on_failed_read :
    watchLoop false "TEMP.CSV"
        [Except.ok DumpRead.unavailable, Except.ok (DumpRead.parsed dump0)]
        [] 0
      = Except.error (RunError.fatal "Could not open file.") := rfl

/-- C5: on a dump with no `MissionBagNumTeams` item the extraction loop
writes nothing, but the promote step of main.rs lines 210-229 still runs:
with an empty output directory it panics trying to rename the absent
staging file, instead of the claimed silent no-op. -/
theorem c5_missing_team_count_panics :
    runPipeline false "TEMP.CSV"
        (DumpRead.parsed [⟨"MissionBagTeamDetailsVersion", "1"⟩]) [] 7
      = Except.error
          (RunError.fatal "Could not rename temporary CSV file with timestamp.")
    ∧ findNumTeamsVal [⟨"MissionBagTeamDetailsVersion", "1"⟩] = none :=
  ⟨rfl, rfl⟩

/-- C6: the fixed-schema strategy (modelled from the spec, §4.2-§4.3 and the
§8 demonstration) reads `num_teams = 2` and the two `team_<t>_numplayers`
counts `1` and `2`, emits exactly one row per declared slot —
`(0,0), (1,0), (1,1)` in order, each with all 17 header fields — and fails
with MissingField when one expected field key is removed. -/
theorem c6_fixed_schema_demo :
    extractFixed fixedHeaders c6Items
      = Except.ok (FixedOutcome.rows
          [⟨0, 0, List.replicate 17 "v"⟩, ⟨1, 0, List.replicate 17 "v"⟩,
           ⟨1, 1, List.replicate 17 "v"⟩])
    ∧ extractFixed fixedHeaders
        (c6Items.filter (fun i => i.name != "player_1_1_q"))
      = Except.error FixedError.missingField :=
  ⟨rfl, rfl⟩

/-- C8: running twice on the byte-identical dump `dump0`.  A stale staging
file makes the first run stage `Team,PlayerZZZ` (leftover bytes survive the
non-truncating open) and promote it; the second run stages the clean
`Team,Player`, which differs from the first run's snapshot, so the second
run promotes AGAIN — the second staged snapshot is not byte-equal to the
first and a second permanent file is created, contrary to the claim. -/
theorem c8_second_identical_run_repromotes :
    runPipeline false "TEMP.CSV" (DumpRead.parsed dump0)
        [⟨"a.csv", true, "X", 1⟩, ⟨"TEMP.CSV", true, "Team,PlayerZZZ", 2⟩] 10
      = Except.ok ⟨[⟨"a.csv", true, "X", 1⟩,
                    ⟨"10.csv", true, "Team,PlayerZZZ", 10⟩],
                   some ("10.csv", "Team,PlayerZZZ")⟩
    ∧ runPipeline false "TEMP.CSV" (DumpRead.parsed dump0)
        [⟨"a.csv", true, "X", 1⟩, ⟨"10.csv", true, "Team,PlayerZZZ", 10⟩] 11
      = Except.ok ⟨[⟨"a.csv", true, "X", 1⟩,
                    ⟨"10.csv", true, "Team,PlayerZZZ", 10⟩,
                    ⟨"11.csv", true, "Team,Player", 11⟩],
                   some ("11.csv", "Team,Player")⟩
    ∧ "Team,Player" ≠ "Team,PlayerZZZ" :=
  ⟨rfl, rfl, by decide⟩

/-- Helper: the only error `keepEntry` can raise is the unwrap panic. -/
theorem keepEntry_error_eq (tmp : String) (x : DirEntry) (e : RunError)
    (h : keepEntry tmp x = Except.error e) : e = RunError.fatal unwrapMsg := by
  unfold keepEntry at h
  by_cases hf : x.isFile
  · rw [if_pos hf] at h
    cases hx : pathExtension x.name with
    | none =>
      rw [hx] at h
      exact (Except.error.inj h).symm
    | some ext =>
      rw [hx] at h
      cases h
  · rw [if_neg hf] at h
    cases h

/-- Helper: a file entry without an extension anywhere in the listing makes
the whole directory scan panic. -/
theorem scanExisting_error_of_bad (tmp : String) (dir : List DirEntry)
    (e : DirEntry) (he : e ∈ dir) (hf : e.isFile = true)
    (hx : pathExtension e.name = none) :
    scanExisting tmp dir = Except.error (RunError.fatal unwrapMsg) := by
  induction dir with
  | nil => cases he
  | cons x rest ih =>
    rcases List.mem_cons.mp he with h | h
    · subst h
      unfold scanExisting keepEntry
      rw [if_pos hf, hx]
    · have hrest := ih h
      unfold scanExisting
      cases hk : keepEntry tmp x with
      | error err => rw [keepEntry_error_eq tmp x err hk]
      | ok b => rw [hrest]

/-- C10: if the output directory holds any file entry whose name has no
extension (including one literally named `.csv`), the pre-run scan's
`extension().unwrap()` panics and the whole run aborts, instead of skipping
the entry. -/
theorem c10_scan_panics_on_extensionless_file (zb : Bool) (tmp : String)
    (items : List Item) (dir : List DirEntry) (now : Nat) (e : DirEntry)
    (he : e ∈ dir) (hf : e.isFile = true) (hx : pathExtension e.name = none) :
    runPipeline zb tmp (DumpRead.parsed items) dir now
      = Except.error (RunError.fatal unwrapMsg) := by
  unfold runPipeline
  rw [scanExisting_error_of_bad tmp dir e he hf hx]

/-- C10 witness: a directory holding a single file named `.csv` (which
`Path::extension` treats as extensionless) makes a concrete run abort with
the unwrap panic. -/
theorem c10_scan_witness :
    (⟨".csv", true, "", 0⟩ : DirEntry) ∈ [(⟨".csv", true, "", 0⟩ : DirEntry)]
    ∧ (⟨".csv", true, "", 0⟩ : DirEntry).isFile = true
    ∧ pathExtension ".csv" = none
    ∧ runPipeline false "TEMP.CSV" (DumpRead.parsed [])
        [⟨".csv", true, "", 0⟩] 0
      = Except.error (RunError.fatal unwrapMsg) :=
  ⟨List.mem_singleton.mpr rfl, rfl, rfl,
   c10_scan_panics_on_extensionless_file false "TEMP.CSV" [] _ 0 _
     (List.mem_singleton.mpr rfl) rfl rfl⟩

/-- C4 (amended): in watch mode only errors delivered by the notification
channel are reported and skipped, the loop going on to the next event; a
failure inside the per-event pipeline run (unreadable dump, malformed dump,
or any extraction or promotion failure) terminates the watcher, through a
panic or through `?` propagation out of the loop. -/
theorem c4_notify_errors_skipped_run_failures_terminate (zb : Bool)
    (tmp : String) (w : String) (evs : List (Except String DumpRead))
    (dir : List DirEntry) (t : Nat) (d : DumpRead) (e : RunError)
    (h : runPipeline zb tmp d dir t = Except.error e) :
    watchLoop zb tmp (Except.error w :: evs) dir t
        = watchLoop zb tmp evs dir t
    ∧ watchLoop zb tmp (Except.ok d :: evs) dir t = Except.error e := by
  refine ⟨rfl, ?_⟩
  unfold watchLoop
  rw [h]

/-- C4 witness: with an unreadable dump on the event, the amended behaviour
is exhibited at a concrete input. -/
theorem c4_watch_witness :
    runPipeline false "TEMP.CSV" DumpRead.unavailable [] 0
      = Except.error (RunError.fatal "Could not open file.")
    ∧ (watchLoop false "TEMP.CSV" [Except.error "w"] [] 0
         = watchLoop false "TEMP.CSV" [] [] 0
       ∧ watchLoop false "TEMP.CSV" [Except.ok DumpRead.unavailable] [] 0
         = Except.error (RunError.fatal "Could not open file.")) :=
  ⟨rfl, c4_notify_errors_skipped_run_failures_terminate false "TEMP.CSV" "w"
    [] [] 0 DumpRead.unavailable _ rfl⟩

/-- Helper: looking up the name just inserted by `putEntry` finds exactly
the inserted entry. -/
theorem findEntry_putEntry (l : List DirEntry) (e : DirEntry) :
    findEntry (putEntry l e) e.name = some e := by
  induction l with
  | nil => simp [putEntry, findEntry, List.find?]
  | cons x xs ih =>
    unfold putEntry
    by_cases h : x.name == e.name
    · simp only [if_pos h]
      simp [findEntry, List.find?]
    · simp only [if_neg h]
      unfold findEntry at ih ⊢
      simp only [List.find?]
      rw [Bool.not_eq_true] at h
      rw [h]
      exact ih

/-- Helper: a run whose scan succeeds and whose extraction stages output
reduces to the promote step on the staged directory. -/
theorem runPipeline_parsed_eq (zb : Bool) (tmp : String) (items : List Item)
    (dir kept : List DirEntry) (now : Nat) (eo : ExtractOut)
    (hs : scanExisting tmp dir = Except.ok kept)
    (hx : extractCore zb items = Except.ok (some eo)) :
    runPipeline zb tmp (DumpRead.parsed items) dir now
      = promotePhase (stagedWrite dir tmp (serialize eo) now) tmp
          (latestOf kept) now := by
  unfold runPipeline
  dsimp only
  rw [hs]
  dsimp only
  rw [hx]

/-- C7: after the staging write, the run is decided by comparing the staging
file's content against the single most-recently-modified kept `.csv`
(staging name excluded): if none exists or the contents differ, the staging
file is renamed to the local-timestamp `.csv` name and reported as the
promoted path and content; if they are identical, the staging file stays in
place and nothing is promoted. -/
theorem c7_promote_on_new_or_different_only (zb : Bool) (tmp : String)
    (items : List Item) (dir kept : List DirEntry) (now : Nat)
    (eo : ExtractOut)
    (hs : scanExisting tmp dir = Except.ok kept)
    (hx : extractCore zb items = Except.ok (some eo)) :
    runPipeline zb tmp (DumpRead.parsed items) dir now
      = (match latestOf kept with
         | none =>
           Except.ok
             ⟨putEntry
                 (removeEntry (stagedWrite dir tmp (serialize eo) now) tmp)
                 ⟨timestampName now, true,
                  stagedContent dir tmp (serialize eo), now⟩,
              some (timestampName now, stagedContent dir tmp (serialize eo))⟩
         | some de =>
           if stagedContent dir tmp (serialize eo) = de.content then
             Except.ok ⟨stagedWrite dir tmp (serialize eo) now, none⟩
           else
             Except.ok
               ⟨putEntry
                   (removeEntry (stagedWrite dir tmp (serialize eo) now) tmp)
                   ⟨timestampName now, true,
                    stagedContent dir tmp (serialize eo), now⟩,
                some (timestampName now,
                      stagedContent dir tmp (serialize eo))⟩) := by
  rw [runPipeline_parsed_eq zb tmp items dir kept now eo hs hx]
  have hfind : findEntry (stagedWrite dir tmp (serialize eo) now) tmp
      = some ⟨tmp, true, stagedContent dir tmp (serialize eo), now⟩ :=
    findEntry_putEntry dir ⟨tmp, true, stagedContent dir tmp (serialize eo), now⟩
  cases hl : latestOf kept with
  | none =>
    simp only [promotePhase, hfind, doRename]
  | some de =>
    simp only [promotePhase, hfind, doRename]
    by_cases hc : stagedContent dir tmp (serialize eo) = de.content
    · rw [if_neg (by simpa using hc), if_pos hc]
    · rw [if_pos (by simpa using hc), if_neg hc]

/-- C7 witness: a concrete run (empty directory, zero-team dump) promoting
the freshly staged `Team,Player` snapshot. -/
theorem c7_promote_witness :
    runPipeline false "TEMP.CSV" (DumpRead.parsed dump0) [] 3
      = (match latestOf [] with
         | none =>
           Except.ok
             ⟨putEntry
                 (removeEntry
                   (stagedWrite [] "TEMP.CSV" (serialize ⟨[], []⟩) 3)
                   "TEMP.CSV")
                 ⟨timestampName 3, true,
                  stagedContent [] "TEMP.CSV" (serialize ⟨[], []⟩), 3⟩,
              some (timestampName 3,
                    stagedContent [] "TEMP.CSV" (serialize ⟨[], []⟩))⟩
         | some de =>
           if stagedContent [] "TEMP.CSV" (serialize ⟨[], []⟩) = de.content then
             Except.ok ⟨stagedWrite [] "TEMP.CSV" (serialize ⟨[], []⟩) 3, none⟩
           else
             Except.ok
               ⟨putEntry
                   (removeEntry
                     (stagedWrite [] "TEMP.CSV" (serialize ⟨[], []⟩) 3)
                     "TEMP.CSV")
                   ⟨timestampName 3, true,
                    stagedContent [] "TEMP.CSV" (serialize ⟨[], []⟩), 3⟩,
                some (timestampName 3,
                      stagedContent [] "TEMP.CSV" (serialize ⟨[], []⟩))⟩) :=
  c7_promote_on_new_or_different_only false "TEMP.CSV" dump0 [] [] 3
    ⟨[], []⟩ rfl rfl

/-- C9 counterexample: a dump listing slot `(2,1)` before slot `(1,1)`
produces the rows in exactly that dump order — `rowStart 2 1` then
`rowStart 1 1` (zero-based) — so the emitted rows are not sorted by
`(team, player)`: the composite keys read `[7, 4]`. -/
theorem c9_rows_follow_dump_order :
    extractCore true c9Items
      = Except.ok (some ⟨[],
          [Chunk.rowStart 2 1, Chunk.fieldVal "x",
           Chunk.rowStart 1 1, Chunk.fieldVal "y"]⟩)
    ∧ ¬ (rowKeys [Chunk.rowStart 2 1, Chunk.fieldVal "x",
          Chunk.rowStart 1 1, Chunk.fieldVal "y"]).Sorted (· < ·) :=
  ⟨rfl, by decide⟩

/-- Helper: data-loop step on an entry of an already-skipped team. -/
theorem dataLoop_cons_skip (off : Nat) (e : Entry) (rest : List Entry)
    (prev skip : Nat) (h : e.team < skip) :
    dataLoop off (e :: rest) prev skip = dataLoop off rest prev skip := by
  simp only [dataLoop]
  rw [if_pos h]

/-- Helper: data-loop step on an entry opening a new slot with an empty
value: no output, and the rest of its team is skipped. -/
theorem dataLoop_cons_empty (off : Nat) (e : Entry) (rest : List Entry)
    (prev skip : Nat) (h1 : ¬ e.team < skip) (h2 : curOf e ≠ prev)
    (h3 : e.value = "") :
    dataLoop off (e :: rest) prev skip
      = dataLoop off rest (curOf e) (e.team + 1) := by
  simp only [dataLoop]
  rw [if_neg h1, if_pos h2, if_pos h3]

/-- Helper: data-loop step on an entry opening a new non-empty slot: a row
opener and the first value are emitted. -/
theorem dataLoop_cons_row (off : Nat) (e : Entry) (rest : List Entry)
    (prev skip : Nat) (h1 : ¬ e.team < skip) (h2 : curOf e ≠ prev)
    (h3 : ¬ e.value = "") :
    dataLoop off (e :: rest) prev skip
      = Chunk.rowStart ((e.team + off) % 2 ^ 32) ((e.player + off) % 2 ^ 32)
          :: Chunk.fieldVal e.value :: dataLoop off rest (curOf e) skip := by
  simp only [dataLoop]
  rw [if_neg h1, if_pos h2, if_neg h3]

/-- Helper: data-loop step on a further entry of the current slot: only the
value is emitted. -/
theorem dataLoop_cons_same (off : Nat) (e : Entry) (rest : List Entry)
    (prev skip : Nat) (h1 : ¬ e.team < skip) (h2 : ¬ curOf e ≠ prev) :
    dataLoop off (e :: rest) prev skip
      = Chunk.fieldVal e.value :: dataLoop off rest prev skip := by
  simp only [dataLoop]
  rw [if_neg h1, if_neg h2]

/-- Helper: the skip component after one step is unchanged or `team + 1`. -/
theorem stepPS_snd_cases (s : Nat × Nat) (e : Entry) :
    (stepPS s e).2 = s.2 ∨ (stepPS s e).2 = e.team + 1 := by
  unfold stepPS
  by_cases h1 : e.team < s.2
  · rw [if_pos h1]
    exact Or.inl rfl
  · rw [if_neg h1]
    by_cases h2 : curOf e ≠ s.1
    · rw [if_pos h2]
      by_cases h3 : e.value = ""
      · rw [if_pos h3]
        exact Or.inr rfl
      · rw [if_neg h3]
        exact Or.inl rfl
    · rw [if_neg h2]
      exact Or.inl rfl

/-- Helper: the previous-key component after one step is unchanged or the
entry's composite key. -/
theorem stepPS_fst_cases (s : Nat × Nat) (e : Entry) :
    (stepPS s e).1 = s.1 ∨ (stepPS s e).1 = curOf e := by
  unfold stepPS
  by_cases h1 : e.team < s.2
  · rw [if_pos h1]
    exact Or.inl rfl
  · rw [if_neg h1]
    by_cases h2 : curOf e ≠ s.1
    · rw [if_pos h2]
      by_cases h3 : e.value = ""
      · rw [if_pos h3]
        exact Or.inr rfl
      · rw [if_neg h3]
        exact Or.inr rfl
    · rw [if_neg h2]
      exact Or.inl rfl

/-- Helper: the final skip value is the initial one or `team + 1` of some
consumed entry. -/
theorem finalPS_skip_cases (l : List Entry) :
    ∀ s : Nat × Nat,
      (finalPS l s).2 = s.2 ∨ ∃ e ∈ l, (finalPS l s).2 = e.team + 1 := by
  induction l with
  | nil =>
    intro s
    exact Or.inl rfl
  | cons e rest ih =>
    intro s
    have h : finalPS (e :: rest) s = finalPS rest (stepPS s e) := rfl
    rw [h]
    rcases ih (stepPS s e) with h2 | ⟨x, hx, h2⟩
    · rcases stepPS_snd_cases s e with h3 | h3
      · exact Or.inl (h2.trans h3)
      · exact Or.inr ⟨e, List.mem_cons_self e rest, h2.trans h3⟩
    · exact Or.inr ⟨x, List.mem_cons_of_mem e hx, h2⟩

/-- Helper: the final previous-key value is the initial one or the composite
key of some consumed entry. -/
theorem finalPS_prev_cases (l : List Entry) :
    ∀ s : Nat × Nat,
      (finalPS l s).1 = s.1 ∨ ∃ e ∈ l, (finalPS l s).1 = curOf e := by
  induction l with
  | nil =>
    intro s
    exact Or.inl rfl
  | cons e rest ih =>
    intro s
    have h : finalPS (e :: rest) s = finalPS rest (stepPS s e) := rfl
    rw [h]
    rcases ih (stepPS s e) with h2 | ⟨x, hx, h2⟩
    · rcases stepPS_fst_cases s e with h3 | h3
      · exact Or.inl (h2.trans h3)
      · exact Or.inr ⟨e, List.mem_cons_self e rest, h2.trans h3⟩
    · exact Or.inr ⟨x, List.mem_cons_of_mem e hx, h2⟩

/-- Helper: the data loop distributes over list append, the second part
running from the state the first part ends in. -/
theorem dataLoop_append (off : Nat) (l₁ l₂ : List Entry) :
    ∀ prev skip : Nat,
      dataLoop off (l₁ ++ l₂) prev skip
        = dataLoop off l₁ prev skip
            ++ dataLoop off l₂ (finalPS l₁ (prev, skip)).1
                (finalPS l₁ (prev, skip)).2 := by
  induction l₁ with
  | nil =>
    intro prev skip
    rfl
  | cons e rest ih =>
    intro prev skip
    have hfold : finalPS (e :: rest) (prev, skip)
        = finalPS rest (stepPS (prev, skip) e) := rfl
    rw [List.cons_append]
    by_cases h1 : e.team < skip
    · have hst : stepPS (prev, skip) e = (prev, skip) := by
        unfold stepPS
        rw [if_pos h1]
      rw [dataLoop_cons_skip off e (rest ++ l₂) prev skip h1,
        dataLoop_cons_skip off e rest prev skip h1, ih prev skip, hfold, hst]
    · by_cases h2 : curOf e ≠ prev
      · by_cases h3 : e.value = ""
        · have hst : stepPS (prev, skip) e = (curOf e, e.team + 1) := by
            unfold stepPS
            rw [if_neg h1, if_pos h2, if_pos h3]
          rw [dataLoop_cons_empty off e (rest ++ l₂) prev skip h1 h2 h3,
            dataLoop_cons_empty off e rest prev skip h1 h2 h3,
            ih (curOf e) (e.team + 1), hfold, hst]
        · have hst : stepPS (prev, skip) e = (curOf e, skip) := by
            unfold stepPS
            rw [if_neg h1, if_pos h2, if_neg h3]
          rw [dataLoop_cons_row off e (rest ++ l₂) prev skip h1 h2 h3,
            dataLoop_cons_row off e rest prev skip h1 h2 h3,
            ih (curOf e) skip, hfold, hst, List.cons_append, List.cons_append]
      · have hst : stepPS (prev, skip) e = (prev, skip) := by
          unfold stepPS
          rw [if_neg h1, if_neg h2]
        rw [dataLoop_cons_same off e (rest ++ l₂) prev skip h1 h2,
          dataLoop_cons_same off e rest prev skip h1 h2, ih prev skip, hfold,
          hst, List.cons_append]

/-- Helper: a row opener contributes its team number to `rowTeams`. -/
theorem rowTeams_cons_row (a b : Nat) (cs : List Chunk) :
    rowTeams (Chunk.rowStart a b :: cs) = a :: rowTeams cs := rfl

/-- Helper: a field value contributes nothing to `rowTeams`. -/
theorem rowTeams_cons_val (v : String) (cs : List Chunk) :
    rowTeams (Chunk.fieldVal v :: cs) = rowTeams cs := rfl

/-- Helper: `rowTeams` distributes over append. -/
theorem rowTeams_append (cs ds : List Chunk) :
    rowTeams (cs ++ ds) = rowTeams cs ++ rowTeams ds := by
  simp [rowTeams]

/-- Helper: a row opener contributes its composite key to `rowKeys`. -/
theorem rowKeys_cons_row (a b : Nat) (cs : List Chunk) :
    rowKeys (Chunk.rowStart a b :: cs) = (3 * a + b) :: rowKeys cs := rfl

/-- Helper: a field value contributes nothing to `rowKeys`. -/
theorem rowKeys_cons_val (v : String) (cs : List Chunk) :
    rowKeys (Chunk.fieldVal v :: cs) = rowKeys cs := rfl

/-- Helper: below the sentinel no u32 wrap happens, so the composite key
equals its unwrapped value. -/
theorem curOf_eq_raw (e : Entry) (h : rawCur e < SENT) : curOf e = rawCur e := by
  unfold curOf rawCur SENT at *
  exact Nat.mod_eq_of_lt (by omega)

/-- Helper: with zero offset and no wrap, the key recorded on an emitted row
is the entry's composite key. -/
theorem rowKey_emit (e : Entry) (h : rawCur e < SENT) :
    3 * ((e.team + 0) % 2 ^ 32) + ((e.player + 0) % 2 ^ 32) = curOf e := by
  have h32 : rawCur e < 2 ^ 32 := by
    unfold SENT at h
    omega
  have ht : e.team < 2 ^ 32 := by
    unfold rawCur at h32
    omega
  have hp : e.player < 2 ^ 32 := by
    unfold rawCur at h32
    omega
  unfold rawCur at h32
  unfold curOf
  rw [Nat.add_zero, Nat.add_zero, Nat.mod_eq_of_lt ht, Nat.mod_eq_of_lt hp,
    Nat.mod_eq_of_lt h32]

/-- Helper: while every entry of a team equal to `t` stays below the skip
threshold, the data loop emits no row numbered `t + off`.  (The skip
threshold never decreases, and rows of other teams carry other numbers.) -/
theorem dataLoop_team_not_mem (off t : Nat) (l : List Entry) :
    ∀ prev skip : Nat,
      (∀ e ∈ l, e.team = t → t < skip) →
      (∀ e ∈ l, e.team + off < 2 ^ 32) →
      t + off ∉ rowTeams (dataLoop off l prev skip) := by
  induction l with
  | nil =>
    intro prev skip _ _
    simp [rowTeams, dataLoop]
  | cons e rest ih =>
    intro prev skip hskip hb
    have hbe := hb e (List.mem_cons_self e rest)
    have hbrest : ∀ x ∈ rest, x.team + off < 2 ^ 32 :=
      fun x hx => hb x (List.mem_cons_of_mem e hx)
    by_cases h1 : e.team < skip
    · rw [dataLoop_cons_skip off e rest prev skip h1]
      exact ih prev skip (fun x hx => hskip x (List.mem_cons_of_mem e hx)) hbrest
    · have het : e.team ≠ t := by
        intro hh
        have := hskip e (List.mem_cons_self e rest) hh
        omega
      by_cases h2 : curOf e ≠ prev
      · by_cases h3 : e.value = ""
        · rw [dataLoop_cons_empty off e rest prev skip h1 h2 h3]
          refine ih (curOf e) (e.team + 1) ?_ hbrest
          intro x hx hxt
          have := hskip x (List.mem_cons_of_mem e hx) hxt
          omega
        · rw [dataLoop_cons_row off e rest prev skip h1 h2 h3,
            rowTeams_cons_row, rowTeams_cons_val]
          simp only [List.mem_cons, not_or]
          constructor
          · rw [Nat.mod_eq_of_lt hbe]
            omega
          · exact ih (curOf e) skip
              (fun x hx => hskip x (List.mem_cons_of_mem e hx)) hbrest
      · rw [dataLoop_cons_same off e rest prev skip h1 h2, rowTeams_cons_val]
        exact ih prev skip (fun x hx => hskip x (List.mem_cons_of_mem e hx)) hbrest

/-- C1 (amended): under strategy a, when the first retained entry belonging
to team `t` opens that team with an empty value (all earlier retained
entries belong to teams below `t`, with player indices below the stride 3,
and no composite key wraps), NO row is emitted for team `t` — but rows of
teams with strictly HIGHER index are not suppressed: the skip threshold
only reaches `t + 1`, as the concrete counterexample (team 2 emitted after
empty team 1) exhibits. -/
theorem c1_empty_first_slot_skips_only_that_team (zb : Bool) (t : Nat)
    (l₁ l₂ : List Entry) (e : Entry)
    (het : e.team = t) (hev : e.value = "")
    (hlt : ∀ x ∈ l₁, x.team < t) (hp3 : ∀ x ∈ l₁, x.player < 3)
    (hb : ∀ x ∈ l₁ ++ e :: l₂, rawCur x < SENT) :
    t + offOf zb ∉ rowTeams (dataLoop (offOf zb) (l₁ ++ e :: l₂) SENT 0) := by
  have hteam_bound : ∀ x ∈ l₁ ++ e :: l₂, x.team + offOf zb < 2 ^ 32 := by
    intro x hx
    have hbx := hb x hx
    have hoff : offOf zb ≤ 1 := by
      cases zb <;> simp [offOf]
    unfold rawCur SENT at hbx
    omega
  rw [dataLoop_append (offOf zb) l₁ (e :: l₂) SENT 0, rowTeams_append]
  rw [List.mem_append]
  push_neg
  constructor
  · apply dataLoop_team_not_mem
    · intro x hx hxt
      have := hlt x hx
      omega
    · intro x hx
      exact hteam_bound x (List.mem_append_left _ hx)
  · set ps := finalPS l₁ (SENT, 0) with hps
    have hs1 : ps.2 ≤ t := by
      rcases finalPS_skip_cases l₁ (SENT, 0) with h | ⟨x, hx, h⟩
      · rw [← hps] at h
        rw [h]
        exact Nat.zero_le t
      · rw [← hps] at h
        rw [h]
        exact hlt x hx
    have hbe : rawCur e < SENT :=
      hb e (List.mem_append_right _ (List.mem_cons_self e l₂))
    have hnp : curOf e ≠ ps.1 := by
      have hce : curOf e = rawCur e := curOf_eq_raw e hbe
      rcases finalPS_prev_cases l₁ (SENT, 0) with h | ⟨x, hx, h⟩
      · rw [← hps] at h
        rw [h, hce]
        omega
      · rw [← hps] at h
        have hbx : rawCur x < SENT := hb x (List.mem_append_left _ hx)
        rw [h, hce, curOf_eq_raw x hbx]
        have h1 := hlt x hx
        have h2 := hp3 x hx
        unfold rawCur
        omega
    have hnskip : ¬ e.team < ps.2 := by omega
    rw [dataLoop_cons_empty (offOf zb) e l₂ ps.1 ps.2 hnskip hnp hev]
    apply dataLoop_team_not_mem
    · intro x hx hxt
      omega
    · intro x hx
      exact hteam_bound x (List.mem_append_right _ (List.mem_cons_of_mem e hx))

/-- C1 witness: the hypotheses hold at the decoded entries of the 3-team
counterexample dump, and the amended theorem yields that (one-based) team
number 2 — team index 1, whose first entry is empty — gets no row. -/
theorem c1_skip_witness :
    (⟨1, 0, "blood_line_name", ""⟩ : Entry).team = 1
    ∧ (⟨1, 0, "blood_line_name", ""⟩ : Entry).value = ""
    ∧ (∀ x ∈ ([⟨0, 0, "blood_line_name", "A"⟩] : List Entry), x.team < 1)
    ∧ (∀ x ∈ ([⟨0, 0, "blood_line_name", "A"⟩] : List Entry), x.player < 3)
    ∧ (∀ x ∈ ([⟨0, 0, "blood_line_name", "A"⟩] : List Entry)
          ++ (⟨1, 0, "blood_line_name", ""⟩ : Entry)
            :: [⟨2, 0, "blood_line_name", "C"⟩], rawCur x < SENT)
    ∧ 1 + offOf false ∉ rowTeams (dataLoop (offOf false)
        (([⟨0, 0, "blood_line_name", "A"⟩] : List Entry)
          ++ (⟨1, 0, "blood_line_name", ""⟩ : Entry)
            :: [⟨2, 0, "blood_line_name", "C"⟩]) SENT 0) :=
  ⟨rfl, rfl, by decide, by decide, by decide,
   c1_empty_first_slot_skips_only_that_team false 1 _ _ _ rfl rfl
     (by decide) (by decide) (by decide)⟩

/-- Helper: on entries whose composite keys are nondecreasing (and never
wrap), the emitted row keys are strictly increasing, and each exceeds the
starting previous-key unless that is the sentinel. -/
theorem dataLoop_sorted_aux (l : List Entry) :
    ∀ prev skip : Nat,
      (l.map curOf).Sorted (· ≤ ·) →
      (∀ e ∈ l, rawCur e < SENT) →
      (∀ e ∈ l, prev = SENT ∨ prev ≤ curOf e) →
      (rowKeys (dataLoop 0 l prev skip)).Sorted (· < ·)
      ∧ (∀ k ∈ rowKeys (dataLoop 0 l prev skip), prev = SENT ∨ prev < k) := by
  induction l with
  | nil =>
    intro prev skip _ _ _
    exact ⟨List.sorted_nil, by simp [rowKeys, dataLoop]⟩
  | cons e rest ih =>
    intro prev skip hsort hb hp
    simp only [List.map_cons] at hsort
    have hsort' : (rest.map curOf).Sorted (· ≤ ·) :=
      (List.sorted_cons.mp hsort).2
    have hhead : ∀ x ∈ rest, curOf e ≤ curOf x := by
      intro x hx
      exact (List.sorted_cons.mp hsort).1 (curOf x) (List.mem_map_of_mem curOf hx)
    have hbe : rawCur e < SENT := hb e (List.mem_cons_self e rest)
    have hbrest : ∀ x ∈ rest, rawCur x < SENT :=
      fun x hx => hb x (List.mem_cons_of_mem e hx)
    have hcne : curOf e ≠ SENT := by
      rw [curOf_eq_raw e hbe]
      omega
    by_cases h1 : e.team < skip
    · rw [dataLoop_cons_skip 0 e rest prev skip h1]
      exact ih prev skip hsort' hbrest
        (fun x hx => hp x (List.mem_cons_of_mem e hx))
    · by_cases h2 : curOf e ≠ prev
      · have hp' : ∀ x ∈ rest, curOf e = SENT ∨ curOf e ≤ curOf x :=
          fun x hx => Or.inr (hhead x hx)
        have hpe : prev = SENT ∨ prev < curOf e := by
          rcases hp e (List.mem_cons_self e rest) with h | h
          · exact Or.inl h
          · exact Or.inr (lt_of_le_of_ne h (fun hh => h2 hh.symm))
        by_cases h3 : e.value = ""
        · rw [dataLoop_cons_empty 0 e rest prev skip h1 h2 h3]
          have hres := ih (curOf e) (e.team + 1) hsort' hbrest hp'
          refine ⟨hres.1, ?_⟩
          intro k hk
          have hck : curOf e < k := (hres.2 k hk).resolve_left hcne
          rcases hpe with h | h
          · exact Or.inl h
          · exact Or.inr (lt_trans h hck)
        · rw [dataLoop_cons_row 0 e rest prev skip h1 h2 h3,
            rowKeys_cons_row, rowKeys_cons_val, rowKey_emit e hbe]
          have hres := ih (curOf e) skip hsort' hbrest hp'
          constructor
          · rw [List.sorted_cons]
            refine ⟨?_, hres.1⟩
            intro b hbmem
            exact (hres.2 b hbmem).resolve_left hcne
          · intro k hk
            rcases List.mem_cons.mp hk with rfl | hk
            · exact hpe
            · rcases hpe with h | h
              · exact Or.inl h
              · exact Or.inr
                  (lt_trans h ((hres.2 k hk).resolve_left hcne))
      · rw [dataLoop_cons_same 0 e rest prev skip h1 h2, rowKeys_cons_val]
        push_neg at h2
        have hp' : ∀ x ∈ rest, prev = SENT ∨ prev ≤ curOf x := by
          intro x hx
          right
          rw [← h2]
          exact hhead x hx
        exact ih prev skip hsort' hbrest hp'

/-- C9 (amended): under strategy a the rows are emitted in dump order, not
re-sorted; when the retained player entries themselves appear in
nondecreasing composite-key order (keys below the sentinel, so no u32
wrap), the emitted rows' composite keys are strictly increasing — the
counterexample shows an out-of-order dump whose rows are out of order. -/
theorem c9_rows_sorted_of_sorted_entries (l : List Entry)
    (hsort : (l.map curOf).Sorted (· ≤ ·))
    (hb : ∀ e ∈ l, rawCur e < SENT) :
    (rowKeys (dataLoop 0 l SENT 0)).Sorted (· < ·) :=
  (dataLoop_sorted_aux l SENT 0 hsort hb (fun _ _ => Or.inl rfl)).1

/-- C9 witness: three in-order entries produce rows with strictly increasing
composite keys. -/
theorem c9_sorted_witness :
    (([⟨0, 0, "mmr", "A"⟩, ⟨0, 1, "mmr", "B"⟩, ⟨1, 0, "mmr", "C"⟩] :
        List Entry).map curOf).Sorted (· ≤ ·)
    ∧ (∀ e ∈ ([⟨0, 0, "mmr", "A"⟩, ⟨0, 1, "mmr", "B"⟩, ⟨1, 0, "mmr", "C"⟩] :
        List Entry), rawCur e < SENT)
    ∧ (rowKeys (dataLoop 0
        [⟨0, 0, "mmr", "A"⟩, ⟨0, 1, "mmr", "B"⟩, ⟨1, 0, "mmr", "C"⟩]
        SENT 0)).Sorted (· < ·) :=
  ⟨by decide, by decide,
   c9_rows_sorted_of_sorted_entries _ (by decide) (by decide)⟩
